import Mathlib

/-!
Verification development for the planest offline-first planning PWA
(sync engine, recurrence expansion, reminder dispatch).

Shallow embedding conventions:
* ISO-8601 timestamp strings are modelled as `Int` seconds since the Unix
  epoch; the ISO form is order-isomorphic to this, and every comparison or
  arithmetic the source performs on timestamps factors through this view.
* Calendar-day strings such as "2024-01-08" (the values produced by
  `getDayIso` / `occurrenceDateIso.slice(0,10)`) are modelled as `Int` day
  numbers since 1970-01-01.
* Entity ids, titles, colors and similar opaque strings stay `String`.
* JavaScript objects whose declared TypeScript field may be absent at
  runtime are modelled with `Option`; `none` stands for a missing key /
  `undefined`, `some` for a present value.
-/

/-- Seconds in a civil day. -/
def secPerDay : Int := 86400

/-- Calendar day (days since 1970-01-01) of an instant, i.e. the local
calendar day that `getDayIso` / `format(date, yyyy-MM-dd)` extracts. -/
def dayOfInstant (t : Int) : Int := t.fdiv secPerDay

/-- Time of day in seconds of an instant. -/
def todOfInstant (t : Int) : Int := t.emod secPerDay

/-- JavaScript `Date.getDay()` of a calendar day: 0 = Sunday ... 6 = Saturday.
1970-01-01 was a Thursday (js day 4). -/
def jsDayOf (z : Int) : Int := (z + 4).emod 7

/-- Day of month (1..31) of a calendar day number, via the standard
civil-from-days conversion; used for FREQ=MONTHLY matching. -/
def domOfDay (z : Int) : Int :=
  let z2 := z + 719468
  let era := z2.fdiv 146097
  let doe := z2 - era * 146097
  let yoe := (doe - doe.fdiv 1460 + doe.fdiv 36524 - doe.fdiv 146096).fdiv 365
  let doy := doe - (365 * yoe + yoe.fdiv 4 - yoe.fdiv 100)
  let mp := (5 * doy + 2).fdiv 153
  doy - (153 * mp + 2).fdiv 5 + 1

/-! ## Local entity records (src/types.ts)

Field-for-field translations of the TypeScript entity types. The entity
types keep the source field names in camelCase. -/

/-- UserProfile (types.ts lines 9-15). -/
structure UserProfile where
  id : String
  email : Option String
  displayName : String
  createdAt : Int
  updatedAt : Int
deriving DecidableEq, Repr

/-- PriorityCategory (types.ts lines 17-23). -/
structure PriorityCategory where
  id : String
  title : String
  owner : String
  ownerUserId : Option String
  color : String
  colorName : Option String
  createdAt : Int
  updatedAt : Int
deriving DecidableEq, Repr

/-- PlanItem (hierarchical-model variant; shape used by sync.ts toRemote
for the items table: id, categoryId, title, note, mentionUserIds,
timestamps). -/
structure PlanItem where
  id : String
  categoryId : String
  title : String
  note : String
  mentionUserIds : List String
  createdAt : Int
  updatedAt : Int
deriving DecidableEq, Repr

/-- PlanAction in the shape sync.ts and usePlanestData.ts operate on
(parent reference named itemId, as read by toRemote for the actions
table). -/
structure PlanAction where
  id : String
  itemId : String
  title : String
  percentComplete : Int
  dueDate : Option Int
  reminders : List Int
  mentionUserIds : List String
  createdAt : Int
  updatedAt : Int
deriving DecidableEq, Repr

/-! ## Recurrence rules

The source stores the recurrence rule as an RRULE string produced by
recurrenceToRRule and re-parsed by rrulestr. The strings this app builds
form the restricted grammar FREQ in (DAILY, WEEKLY, MONTHLY), INTERVAL=1,
optional BYDAY list (weekly only), optional UNTIL. The embedding keeps the
parsed form of exactly that grammar. -/

/-- RRULE weekday codes, as in jsDayToRRuleDay (types.ts line 130). -/
inductive RDay where
  | SU | MO | TU | WE | TH | FR | SA
deriving DecidableEq, Repr

/-- jsDayToRRuleDay (types.ts line 130): JS getDay index to RRULE code. -/
def jsDayToRRuleDay (d : Int) : RDay :=
  if d = 0 then .SU
  else if d = 1 then .MO
  else if d = 2 then .TU
  else if d = 3 then .WE
  else if d = 4 then .TH
  else if d = 5 then .FR
  else .SA

/-- Frequency field of the recurrence rules this app generates. -/
inductive Freq where
  | daily | weekly | monthly
deriving DecidableEq, Repr

/-- Parsed form of the RRULE strings recurrenceToRRule generates:
frequency, BYDAY list (weekly only, empty otherwise), optional UNTIL
instant. -/
structure RRuleSpec where
  freq : Freq
  byday : List RDay
  untilAt : Option Int
deriving DecidableEq, Repr

/-- Recurrence type selected in the event form: the strings compared by
recurrenceToRRule (none, daily, weekly, monthly). -/
inductive RecType where
  | noRepeat | daily | weekly | monthly
deriving DecidableEq, Repr

/-- RecurrenceConfig (types.ts lines 197-202): form state feeding
recurrenceToRRule. untilDate is the optional UNTIL calendar day (empty
string modelled as none); startsAtLocal the event start instant. -/
structure RecurrenceConfig where
  rtype : RecType
  startsAtLocal : Int
  untilDate : Option Int
  weekdays : List RDay
deriving DecidableEq, Repr

/-- recurrenceToRRule (types.ts lines 220-238): builds the rule. For
weekly, BYDAY is the selected weekdays, defaulting to the weekday of the
start instant when none are selected; UNTIL is the untilDate at 23:59:59
(modelled as second 86399 of that day). Returns none for rtype none. -/
def recurrenceToRRule (c : RecurrenceConfig) : Option RRuleSpec :=
  match c.rtype with
  | .noRepeat => none
  | .daily => some ⟨.daily, [], c.untilDate.map (fun d => d * secPerDay + 86399)⟩
  | .weekly =>
      let fallbackDay := jsDayToRRuleDay (jsDayOf (dayOfInstant c.startsAtLocal))
      let selectedDays := if c.weekdays.isEmpty then [fallbackDay] else c.weekdays
      some ⟨.weekly, selectedDays, c.untilDate.map (fun d => d * secPerDay + 86399)⟩
  | .monthly => some ⟨.monthly, [], c.untilDate.map (fun d => d * secPerDay + 86399)⟩

/-- CalendarEvent (types.ts lines 34-48). The TypeScript type declares
description as a required string, but the sync layer and addEvent build
event objects without that key; description is therefore Option, with
none meaning the key is absent (undefined). recurrenceRule keeps the
parsed form of the stored RRULE string. exceptionDates are calendar-day
numbers. -/
structure CalendarEvent where
  id : String
  categoryId : Option String
  title : String
  description : Option String
  startsAt : Int
  endsAt : Int
  recurrenceRule : Option RRuleSpec
  exceptionDates : List Int
  reminders : List Int
  mentionUserIds : List String
  color : String
  colorName : Option String
  attachmentName : Option String
  attachmentDataUrl : Option String
  createdAt : Int
  updatedAt : Int
deriving DecidableEq, Repr

/-! ## Remote row shapes (src/sync.ts lines 7-64)

snake_case column shapes of the remote tables. RemoteEvent has no
description column in sync.ts (the SQL schema has one, but the sync layer
never reads or writes it). -/

/-- RemoteCategory (sync.ts lines 7-16). -/
structure RemoteCategory where
  id : String
  title : String
  owner : String
  owner_user_id : Option String
  color : String
  color_name : Option String
  created_at : Int
  updated_at : Int
deriving DecidableEq, Repr

/-- RemoteItem (sync.ts lines 18-26). -/
structure RemoteItem where
  id : String
  category_id : String
  title : String
  note : String
  mention_user_ids : List String
  created_at : Int
  updated_at : Int
deriving DecidableEq, Repr

/-- RemoteAction (sync.ts lines 28-38). -/
structure RemoteAction where
  id : String
  item_id : String
  title : String
  percent_complete : Int
  due_date : Option Int
  reminders : List Int
  mention_user_ids : List String
  created_at : Int
  updated_at : Int
deriving DecidableEq, Repr

/-- RemoteEvent (sync.ts lines 40-56). Note: no description column. -/
structure RemoteEvent where
  id : String
  category_id : Option String
  title : String
  starts_at : Int
  ends_at : Int
  recurrence_rule : Option RRuleSpec
  exception_dates : List Int
  reminders : List Int
  mention_user_ids : List String
  color : String
  color_name : Option String
  attachment_name : Option String
  attachment_data_url : Option String
  created_at : Int
  updated_at : Int
deriving DecidableEq, Repr

/-- RemoteProfile (sync.ts lines 58-64). -/
structure RemoteProfile where
  id : String
  email : Option String
  display_name : String
  created_at : Int
  updated_at : Int
deriving DecidableEq, Repr

/-! ## toRemote / toLocal (sync.ts lines 68-224)

The source functions branch on the table name over an untyped payload;
the embedding gives one function per branch, each a field-for-field copy
of the corresponding branch. -/

/-- toRemote, categories branch (sync.ts lines 69-82). -/
def toRemoteCategory (data : PriorityCategory) : RemoteCategory :=
  { id := data.id
    title := data.title
    owner := data.owner
    owner_user_id := data.ownerUserId
    color := data.color
    color_name := data.colorName
    created_at := data.createdAt
    updated_at := data.updatedAt }

/-- toRemote, items branch (sync.ts lines 84-96). -/
def toRemoteItem (data : PlanItem) : RemoteItem :=
  { id := data.id
    category_id := data.categoryId
    title := data.title
    note := data.note
    mention_user_ids := data.mentionUserIds
    created_at := data.createdAt
    updated_at := data.updatedAt }

/-- toRemote, actions branch (sync.ts lines 98-112). -/
def toRemoteAction (data : PlanAction) : RemoteAction :=
  { id := data.id
    item_id := data.itemId
    title := data.title
    percent_complete := data.percentComplete
    due_date := data.dueDate
    reminders := data.reminders
    mention_user_ids := data.mentionUserIds
    created_at := data.createdAt
    updated_at := data.updatedAt }

/-- toRemote, profiles branch (sync.ts lines 114-124). -/
def toRemoteProfile (profile : UserProfile) : RemoteProfile :=
  { id := profile.id
    email := profile.email
    display_name := profile.displayName
    created_at := profile.createdAt
    updated_at := profile.updatedAt }

/-- toRemote, events branch (sync.ts lines 126-144). The local
description field is not copied: RemoteEvent has no such column. -/
def toRemoteEvent (data : CalendarEvent) : RemoteEvent :=
  { id := data.id
    category_id := data.categoryId
    title := data.title
    starts_at := data.startsAt
    ends_at := data.endsAt
    recurrence_rule := data.recurrenceRule
    exception_dates := data.exceptionDates
    reminders := data.reminders
    mention_user_ids := data.mentionUserIds
    color := data.color
    color_name := data.colorName
    attachment_name := data.attachmentName
    attachment_data_url := data.attachmentDataUrl
    created_at := data.createdAt
    updated_at := data.updatedAt }

/-- toLocal, categories branch (sync.ts lines 148-161). The source
defaults color_name with an or-else to null; on a typed remote row the
default never fires and the copy is direct. -/
def toLocalCategory (data : RemoteCategory) : PriorityCategory :=
  { id := data.id
    title := data.title
    owner := data.owner
    ownerUserId := data.owner_user_id
    color := data.color
    colorName := data.color_name
    createdAt := data.created_at
    updatedAt := data.updated_at }

/-- toLocal, items branch (sync.ts lines 163-175). -/
def toLocalItem (data : RemoteItem) : PlanItem :=
  { id := data.id
    categoryId := data.category_id
    title := data.title
    note := data.note
    mentionUserIds := data.mention_user_ids
    createdAt := data.created_at
    updatedAt := data.updated_at }

/-- toLocal, actions branch (sync.ts lines 177-191). -/
def toLocalAction (data : RemoteAction) : PlanAction :=
  { id := data.id
    itemId := data.item_id
    title := data.title
    percentComplete := data.percent_complete
    dueDate := data.due_date
    reminders := data.reminders
    mentionUserIds := data.mention_user_ids
    createdAt := data.created_at
    updatedAt := data.updated_at }

/-- toLocal, profiles branch (sync.ts lines 193-203). -/
def toLocalProfile (profile : RemoteProfile) : UserProfile :=
  { id := profile.id
    email := profile.email
    displayName := profile.display_name
    createdAt := profile.created_at
    updatedAt := profile.updated_at }

/-- toLocal, events branch (sync.ts lines 205-224). The constructed
object literal has no description key, so the resulting local event
carries description none (undefined). -/
def toLocalEvent (data : RemoteEvent) : CalendarEvent :=
  { id := data.id
    categoryId := data.category_id
    title := data.title
    description := none
    startsAt := data.starts_at
    endsAt := data.ends_at
    recurrenceRule := data.recurrence_rule
    exceptionDates := data.exception_dates
    reminders := data.reminders
    mentionUserIds := data.mention_user_ids
    color := data.color
    colorName := data.color_name
    attachmentName := data.attachment_name
    attachmentDataUrl := data.attachment_data_url
    createdAt := data.created_at
    updatedAt := data.updated_at }

/-! ## Local table primitives (Dexie wrappers in src/db.ts)

Tables are keyed by entity id. put is upsert-by-id, bulkPut puts each row
in order, delete removes by id, find looks a row up by id. -/

/-- Dexie table.put: replace the row with the same key if present,
otherwise append. -/
def putBy {α : Type} (key : α → String) (store : List α) (u : α) : List α :=
  if store.any (fun x => decide (key x = key u)) then
    store.map (fun x => if key x = key u then u else x)
  else store ++ [u]

/-- Dexie table.bulkPut: put every row, in order. -/
def bulkPutBy {α : Type} (key : α → String) (store : List α) (rows : List α) : List α :=
  rows.foldl (putBy key) store

/-- Dexie table.get: first row with the given key. -/
def findBy {α : Type} (key : α → String) (store : List α) (i : String) : Option α :=
  store.find? (fun x => decide (key x = i))

/-- Dexie table.delete: remove the row with the given key. -/
def deleteBy {α : Type} (key : α → String) (store : List α) (i : String) : List α :=
  store.filter (fun x => decide (key x ≠ i))

/-- JavaScript Set construction over a list: keep the first occurrence of
each element, in encounter order. seen accumulates elements already kept. -/
def dedupKeep {κ : Type} [DecidableEq κ] (seen : List κ) : List κ → List κ
  | [] => []
  | x :: xs => if x ∈ seen then dedupKeep seen xs else x :: dedupKeep (seen ++ [x]) xs

/-- Array.from(new Set(l)). -/
def setDedup (l : List Int) : List Int := dedupKeep [] l

/-! ## Mutation outbox (src/types.ts lines 50-56, src/sync.ts lines 226-253)

A Mutation records the auto-increment outbox id, target table, operation
and payload. The payload is abstracted to the id of the entity it carries:
the drain logic reads nothing else from it (the row content only feeds the
remote call, whose outcome is abstracted by an oracle below). -/

/-- Sync table names (sync.ts line 5). -/
inductive TableName where
  | categories | items | actions | events | profiles
deriving DecidableEq, Repr

/-- Mutation operations (types.ts line 53). -/
inductive MOp where
  | upsert | delete
deriving DecidableEq, Repr

/-- Outbox record (types.ts lines 50-56). id is the Dexie auto-increment
key (always assigned on stored rows); payload is the id of the entity the
mutation carries. -/
structure Mutation where
  id : Nat
  table : TableName
  op : MOp
  payload : String
deriving DecidableEq, Repr

/-- Comparison used by db.mutations.orderBy(id). -/
def mutIdLe (a b : Mutation) : Prop := a.id ≤ b.id

instance : DecidableRel mutIdLe := fun a b => Nat.decLe a.id b.id

instance : IsTotal Mutation mutIdLe := ⟨fun a b => Nat.le_total a.id b.id⟩

instance : IsTrans Mutation mutIdLe := ⟨fun _ _ _ => Nat.le_trans⟩

/-- db.mutations.orderBy(id).toArray(): the outbox rows in ascending id
order. -/
def orderById (l : List Mutation) : List Mutation := l.insertionSort mutIdLe

/-- Drain loop body of pushMutations (sync.ts lines 236-252) over an
ordered queue, against a remote-outcome oracle ok (true: the upsert or
delete succeeded; false: the response carried an error). Returns the
mutations attempted, in order, and the remaining outbox: a successful
mutation is deleted from the outbox before the next is attempted; the
first failure breaks the loop, leaving the failed entry and everything
after it. -/
def drainOutbox (ok : Mutation → Bool) : List Mutation → List Mutation × List Mutation
  | [] => ([], [])
  | m :: rest =>
    if ok m then
      let p := drainOutbox ok rest
      (m :: p.1, p.2)
    else ([m], m :: rest)

/-- pushMutations (sync.ts lines 230-253): outbox contents after the
drain. -/
def pushMutations (ok : Mutation → Bool) (outbox : List Mutation) : List Mutation :=
  (drainOutbox ok (orderById outbox)).2

/-- The mutations pushMutations attempted against the remote store, in
order. -/
def pushAttempted (ok : Mutation → Bool) (outbox : List Mutation) : List Mutation :=
  (drainOutbox ok (orderById outbox)).1

/-! ## Data hook operations (src/hooks/usePlanestData.ts)

The hook writes the local table, appends the matching Mutation to the
outbox, then triggers a best-effort sync. LocalDB carries the tables the
verified operations touch plus the outbox and the Dexie auto-increment
counter. The fire-and-forget sync trigger and the React state refresh do
not change these tables and are not modelled. -/

structure LocalDB where
  actions : List PlanAction
  events : List CalendarEvent
  outbox : List Mutation
  nextMutationId : Nat
deriving Repr

/-- enqueueMutation (sync.ts lines 226-228): db.mutations.add assigns the
next auto-increment id and appends. -/
def enqueueMutation (db : LocalDB) (t : TableName) (o : MOp) (entityId : String) : LocalDB :=
  { db with
      outbox := db.outbox ++ [⟨db.nextMutationId, t, o, entityId⟩]
      nextMutationId := db.nextMutationId + 1 }

/-- Math.max(0, Math.min(100, percentComplete)) (usePlanestData.ts line
151). -/
def clampPercent (p : Int) : Int := max 0 (min 100 p)

/-- addAction (usePlanestData.ts lines 119-140): new action with
percentComplete 0, both timestamps now. -/
def addAction (db : LocalDB) (actionId itemId title : String) (dueDate : Option Int)
    (reminders : List Int) (mentionUserIds : List String) (now : Int) : LocalDB :=
  let action : PlanAction :=
    { id := actionId, itemId := itemId, title := title, percentComplete := 0
      dueDate := dueDate, reminders := reminders, mentionUserIds := mentionUserIds
      createdAt := now, updatedAt := now }
  enqueueMutation { db with actions := putBy (fun a => a.id) db.actions action }
    .actions .upsert action.id

/-- updateActionProgress (usePlanestData.ts lines 142-161): clamp the
input into 0..100, store, enqueue the upsert. Missing action: no-op. -/
def updateActionProgress (db : LocalDB) (actionId : String) (percentComplete : Int)
    (now : Int) : LocalDB :=
  match findBy (fun a => a.id) db.actions actionId with
  | none => db
  | some existing =>
    let updated := { existing with percentComplete := clampPercent percentComplete, updatedAt := now }
    enqueueMutation { db with actions := putBy (fun a => a.id) db.actions updated }
      .actions .upsert updated.id

/-- saveEvent (usePlanestData.ts lines 251-260): stamp updatedAt, put,
enqueue the upsert. -/
def saveEvent (db : LocalDB) (event : CalendarEvent) (now : Int) : LocalDB :=
  let updated := { event with updatedAt := now }
  enqueueMutation { db with events := putBy (fun e => e.id) db.events updated }
    .events .upsert updated.id

/-- deleteEventSeries (usePlanestData.ts lines 262-275): delete the stored
event, enqueue the delete. Missing event: no-op. -/
def deleteEventSeries (db : LocalDB) (eventId : String) : LocalDB :=
  match findBy (fun e => e.id) db.events eventId with
  | none => db
  | some _ =>
    enqueueMutation { db with events := deleteBy (fun e => e.id) db.events eventId }
      .events .delete eventId

/-- deleteEventOccurrence (usePlanestData.ts lines 277-294). occDay is the
calendar day sliced from the occurrence date string
(occurrenceDateIso.slice(0,10)). Non-recurring event: delete the whole
event. Recurring: add the day to the exception set (JS Set dedup) and
saveEvent. -/
def deleteEventOccurrence (db : LocalDB) (eventId : String) (occDay : Int) (now : Int) : LocalDB :=
  match findBy (fun e => e.id) db.events eventId with
  | none => db
  | some existing =>
    match existing.recurrenceRule with
    | none => deleteEventSeries db eventId
    | some _ =>
      let nextExceptionDates := setDedup (existing.exceptionDates ++ [occDay])
      saveEvent db { existing with exceptionDates := nextExceptionDates } now

/-! ## Recurrence expansion (src/types.ts lines 655-725, visibleCalendarEvents)

The expansion of a stored event over a view window. The UI-level filters
(priority filter, user filter, keyword search, holiday overlay) are all
pass-through in their default everything-visible state and independent of
the recurrence engine; the embedding models the per-event expansion the
claims are about. The candidate enumeration of the external rrule library
is modelled from the spec (section 4.3). -/

/-- Whether a calendar day matches the frequency constraint of a rule
relative to the dtstart day: daily matches every day; weekly matches the
BYDAY weekday set; monthly matches the dtstart day-of-month. -/
def freqMatches (r : RRuleSpec) (dtstartDay z : Int) : Bool :=
  match r.freq with
  | .daily => true
  | .weekly => r.byday.contains (jsDayToRRuleDay (jsDayOf z))
  | .monthly => decide (domOfDay z = domOfDay dtstartDay)

/-- Whether an instant respects the UNTIL bound (inclusive). -/
def untilOk (r : RRuleSpec) (t : Int) : Bool :=
  match r.untilAt with
  | none => true
  | some u => decide (t ≤ u)

/-- Modelled from the spec: rule.between(range.start, range.end, true) of
the external rrule library, missing from src. Spec 4.3: enumerate
candidate start instants between the window bounds inclusive, honoring
the frequency/weekday/end-date constraints; candidates start at or after
the event start and carry its time of day. -/
def ruleBetween (r : RRuleSpec) (dtstart a b : Int) : List Int :=
  let dA := dayOfInstant a
  let dB := dayOfInstant b
  let tod := todOfInstant dtstart
  ((List.range (dB - dA + 1).toNat).map (fun i => dA + (i : Int))).filterMap
    (fun z =>
      let t := z * secPerDay + tod
      if freqMatches r (dayOfInstant dtstart) z ∧ untilOk r t
          ∧ dtstart ≤ t ∧ a ≤ t ∧ t ≤ b
      then some t else none)

/-- One concrete occurrence produced by visibleCalendarEvents: the base
event id, start/end instants, the occurrence calendar day, and whether it
came from a recurrence rule. The synthesized window-dependent id string is
determined by these fields and the list position. -/
structure AgendaOccurrence where
  baseEventId : String
  startsAt : Int
  endsAt : Int
  occurrenceDate : Int
  isRecurring : Bool
deriving DecidableEq, Repr

/-- Expansion of one event over the window a..b (types.ts lines 671-724):
a non-recurring event contributes its single occurrence if its start is in
the window and its day is not excepted; a recurring event contributes the
rule candidates whose calendar day is not in the exception set, each with
end = start + the original duration (clamped nonnegative). -/
def expandEvent (event : CalendarEvent) (a b : Int) : List AgendaOccurrence :=
  let durationSec := max 0 (event.endsAt - event.startsAt)
  match event.recurrenceRule with
  | none =>
    if a ≤ event.startsAt ∧ event.startsAt ≤ b then
      if dayOfInstant event.startsAt ∈ event.exceptionDates then []
      else [{ baseEventId := event.id, startsAt := event.startsAt, endsAt := event.endsAt
              occurrenceDate := dayOfInstant event.startsAt, isRecurring := false }]
    else []
  | some r =>
    ((ruleBetween r event.startsAt a b).filter
        (fun t => decide (dayOfInstant t ∉ event.exceptionDates))).map
      (fun t => { baseEventId := event.id, startsAt := t, endsAt := t + durationSec
                  occurrenceDate := dayOfInstant t, isRecurring := true })

/-! ## pullSnapshot (src/sync.ts lines 255-284)

For every table: fetch all remote rows; on a fetch error (or null data)
skip the table; otherwise translate each row with toLocal and bulkPut the
result into the local table. A fetch result of none models the
error-or-null case. -/

structure LocalStore where
  categories : List PriorityCategory
  items : List PlanItem
  actions : List PlanAction
  events : List CalendarEvent
  profiles : List UserProfile
deriving Repr

structure RemoteSnapshot where
  categories : Option (List RemoteCategory)
  items : Option (List RemoteItem)
  actions : Option (List RemoteAction)
  events : Option (List RemoteEvent)
  profiles : Option (List RemoteProfile)
deriving Repr

/-- pullSnapshot (sync.ts lines 255-284). -/
def pullSnapshot (snap : RemoteSnapshot) (s : LocalStore) : LocalStore :=
  { categories :=
      match snap.categories with
      | none => s.categories
      | some rows => bulkPutBy (fun c => c.id) s.categories (rows.map toLocalCategory)
    items :=
      match snap.items with
      | none => s.items
      | some rows => bulkPutBy (fun it => it.id) s.items (rows.map toLocalItem)
    actions :=
      match snap.actions with
      | none => s.actions
      | some rows => bulkPutBy (fun a => a.id) s.actions (rows.map toLocalAction)
    events :=
      match snap.events with
      | none => s.events
      | some rows => bulkPutBy (fun e => e.id) s.events (rows.map toLocalEvent)
    profiles :=
      match snap.profiles with
      | none => s.profiles
      | some rows => bulkPutBy (fun p => p.id) s.profiles (rows.map toLocalProfile) }

/-! ## Insert-as-lock fold

Shared shape of the two de-duplication fences: a key is claimed by
inserting it into a log; a key already present is skipped, a freshly
inserted key triggers exactly one action, recorded in the trace. -/

structure ClaimState (κ : Type) where
  log : List κ
  trace : List κ
deriving Repr

/-- One claim attempt: a duplicate key is skipped, a fresh key is
appended to the log and to the action trace. -/
def claimStep {κ : Type} [DecidableEq κ] (s : ClaimState κ) (k : κ) : ClaimState κ :=
  if k ∈ s.log then s else ⟨s.log ++ [k], s.trace ++ [k]⟩

/-- Claim every key in order, starting from a log, with an empty trace. -/
def claimRun {κ : Type} [DecidableEq κ] (log : List κ) (ks : List κ) : ClaimState κ :=
  ks.foldl claimStep ⟨log, []⟩

/-! ## Reminder delivery service (src/supabase/functions/send-reminders/index.ts)

Rows as selected by the function; reminder timestamps are the parsed
instants (an unparsable reminder is skipped before any dispatch and never
reaches the log, per the NaN guard on line 84). -/

/-- EventRow (index.ts lines 5-11). -/
structure EventRow where
  id : String
  title : String
  starts_at : Int
  reminders : List Int
  mention_user_ids : List String
deriving DecidableEq, Repr

/-- SubscriptionRow (index.ts lines 13-20). -/
structure SubscriptionRow where
  id : String
  user_id : String
  endpoint : String
  p256dh : String
  auth : String
  is_active : Bool
deriving DecidableEq, Repr

/-- Dispatch-log key (event id, reminder timestamp, subscriber id): the
components of the dispatch_key string (ids are colon-free uuids, so the
string form is in bijection with the triple). -/
structure DispatchKey where
  event_id : String
  reminder_at : Int
  sub_id : String
deriving DecidableEq, Repr

/-- subscriptionsByUser (index.ts lines 69-75): the active subscriptions
of one user, in fetch order. -/
def subscriptionsByUser (subs : List SubscriptionRow) (uid : String) : List SubscriptionRow :=
  subs.filter (fun sub => decide (sub.user_id = uid))

/-- uniqueRecipients (index.ts lines 93-96): a JS Map keyed by
subscription id; a repeated id keeps its first position with the last
value, which putBy reproduces. -/
def uniqueRecipients (recipients : List SubscriptionRow) : List SubscriptionRow :=
  recipients.foldl (putBy (fun sub => sub.id)) []

/-- The dispatch keys one event row generates (index.ts lines 81-99):
reminders inside the due window, recipients from the mention list when
non-empty or all active subscriptions otherwise, de-duplicated by
subscription id. -/
def dueKeysForEvent (lower upper : Int) (subs : List SubscriptionRow) (e : EventRow) :
    List DispatchKey :=
  (e.reminders.filter (fun r => decide (lower ≤ r ∧ r ≤ upper))).flatMap
    (fun r =>
      let recipients :=
        if e.mention_user_ids.isEmpty then subs
        else e.mention_user_ids.flatMap (subscriptionsByUser subs)
      (uniqueRecipients recipients).map
        (fun sub => { event_id := e.id, reminder_at := r, sub_id := sub.id }))

/-- All dispatch keys of one invocation, in loop order. -/
def dueDispatchKeys (lower upper : Int) (events : List EventRow) (subs : List SubscriptionRow) :
    List DispatchKey :=
  events.flatMap (dueKeysForEvent lower upper subs)

/-- One invocation of the send-reminders handler against a shared
dispatch log (index.ts lines 81-147): for each due key, insert into
push_dispatch_log; a rejected insert (key already present) skips the
triple, a successful insert proceeds to exactly one push send attempt.
The trace lists the keys whose push send was attempted, in order; send
success or failure does not change the log. -/
def runInvocation (log : List DispatchKey) (lower upper : Int)
    (events : List EventRow) (subs : List SubscriptionRow) : ClaimState DispatchKey :=
  claimRun log (dueDispatchKeys lower upper events subs)

/-! ## Client reminder dispatcher (src/types.ts lines 2534-2577)

checkReminders: with notification permission granted, on each evaluation
walk the actions (skipping completed ones) and the events; every reminder
at or before now whose token is not in the persisted planest_sent_reminders
set raises one local notification and adds the token to the set. -/

/-- Token kind tag: the entity-kind component of the token string. -/
inductive TokenKind where
  | action | event
deriving DecidableEq, Repr

/-- Fired-reminder token (kind, entity id, reminder instant): the
components of the token string kind:id:iso. -/
structure ReminderToken where
  kind : TokenKind
  entityId : String
  remindAt : Int
deriving DecidableEq, Repr

/-- Due action tokens in iteration order (types.ts lines 2546-2558):
actions with percentComplete at or above 100 are skipped entirely; for
the rest, every reminder at or before now yields a token. -/
def dueActionTokens (now : Int) (acts : List PlanAction) : List ReminderToken :=
  acts.flatMap (fun a =>
    if a.percentComplete ≥ 100 then []
    else (a.reminders.filter (fun r => decide (r ≤ now))).map
      (fun r => { kind := .action, entityId := a.id, remindAt := r }))

/-- Due event tokens in iteration order (types.ts lines 2560-2569). -/
def dueEventTokens (now : Int) (evs : List CalendarEvent) : List ReminderToken :=
  evs.flatMap (fun e =>
    (e.reminders.filter (fun r => decide (r ≤ now))).map
      (fun r => { kind := .event, entityId := e.id, remindAt := r }))

/-- checkReminders (types.ts lines 2541-2572): raise a notification for
each due token not yet in the sent set, adding it to the set as it fires.
Due-ness of a token does not depend on the sent set, so the interleaved
loop is the claim fold over the due tokens in loop order. Returns the
persisted sent set (log) and the notifications raised (trace, identified
by token). -/
def checkReminders (acts : List PlanAction) (evs : List CalendarEvent)
    (sent : List ReminderToken) (now : Int) : ClaimState ReminderToken :=
  claimRun sent (dueActionTokens now acts ++ dueEventTokens now evs)

/-! ## Concrete sample data

Closed values used by counterexamples and witnesses. Calendar facts:
day 19723 is 2024-01-01 (a Monday), day 19753 is 2024-01-31 (a
Wednesday). -/

/-- Event start instant 2024-01-01T09:00 (day 19723, 09:00). -/
def ev4start : Int := 19723 * 86400 + 32400

/-- Weekly Monday/Wednesday event starting 2024-01-01T09:00, one hour
long, rule built by recurrenceToRRule with until-date 2024-01-31. -/
def ev4 : CalendarEvent :=
  { id := "e4", categoryId := none, title := "weekly standup", description := none
    startsAt := ev4start, endsAt := ev4start + 3600
    recurrenceRule := recurrenceToRRule ⟨.weekly, ev4start, some 19753, [.MO, .WE]⟩
    exceptionDates := [], reminders := [], mentionUserIds := []
    color := "#3b82f6", colorName := none, attachmentName := none, attachmentDataUrl := none
    createdAt := 0, updatedAt := 0 }

/-- A well-formed local event whose description string is present, as the
CalendarEvent type declares. -/
def evDesc : CalendarEvent :=
  { ev4 with id := "e1", description := some "bring the slides" }

/-- Outbox entry 1: upsert of entity A. -/
def mutA1 : Mutation := ⟨1, .events, .upsert, "A"⟩

/-- Outbox entry 2: upsert of entity B. -/
def mutB2 : Mutation := ⟨2, .events, .upsert, "B"⟩

/-- Outbox entry 3: delete of entity A. -/
def mutA3 : Mutation := ⟨3, .events, .delete, "A"⟩

/-- Remote oracle for the scenario: every push succeeds except entity B. -/
def okNotB : Mutation → Bool := fun m => decide (m.payload ≠ "B")

/-- Local database holding the weekly event. -/
def dbEv : LocalDB := { actions := [], events := [ev4], outbox := [], nextMutationId := 1 }

/-- A half-done action with one reminder at instant 100. -/
def act1 : PlanAction :=
  { id := "a1", itemId := "i1", title := "pack", percentComplete := 50
    dueDate := none, reminders := [100], mentionUserIds := []
    createdAt := 0, updatedAt := 0 }

/-- Local database holding act1. -/
def dbAct : LocalDB := { actions := [act1], events := [], outbox := [], nextMutationId := 1 }

/-- A completed action (percentComplete 100) with a reminder at instant 5,
already due and never fired. -/
def actDone : PlanAction :=
  { id := "a9", itemId := "i1", title := "done task", percentComplete := 100
    dueDate := none, reminders := [5], mentionUserIds := []
    createdAt := 0, updatedAt := 0 }

/-- Remote event row with one reminder at instant 60 and no mentions. -/
def evRow1 : EventRow :=
  { id := "e6", title := "dentist", starts_at := 3600, reminders := [60], mention_user_ids := [] }

/-- One active push subscription. -/
def sub1 : SubscriptionRow :=
  { id := "s1", user_id := "u1", endpoint := "https://push.example/s1"
    p256dh := "k1", auth := "k2", is_active := true }

/-- Remote event row for a pull snapshot. -/
def remoteEv7 : RemoteEvent :=
  { id := "e7", category_id := none, title := "pulled", starts_at := 0, ends_at := 10
    recurrence_rule := none, exception_dates := [], reminders := [], mention_user_ids := []
    color := "#fff", color_name := none, attachment_name := none, attachment_data_url := none
    created_at := 0, updated_at := 0 }

/-- Local store holding only the weekly event (absent from remoteSnap7). -/
def store7 : LocalStore := { categories := [], items := [], actions := [], events := [ev4], profiles := [] }

/-- Snapshot whose only fetched table is events, holding remoteEv7. -/
def remoteSnap7 : RemoteSnapshot :=
  { categories := none, items := none, actions := none, events := some [remoteEv7], profiles := none }

/-! ## Helper lemmas -/

lemma mem_dedupKeep {κ : Type} [DecidableEq κ] (x : κ) (l : List κ) :
    ∀ seen : List κ, x ∈ dedupKeep seen l ↔ x ∈ l ∧ x ∉ seen := by
  induction l with
  | nil => intro seen; simp [dedupKeep]
  | cons y ys ih =>
    intro seen
    by_cases hy : y ∈ seen
    · rw [dedupKeep, if_pos hy, ih seen]
      constructor
      · exact fun h => ⟨List.mem_cons_of_mem _ h.1, h.2⟩
      · rintro ⟨h1, h2⟩
        rcases List.mem_cons.mp h1 with rfl | h1
        · exact absurd hy h2
        · exact ⟨h1, h2⟩
    · rw [dedupKeep, if_neg hy]
      by_cases hxy : x = y
      · subst hxy
        simp [hy]
      · simp only [List.mem_cons, hxy, false_or]
        rw [ih (seen ++ [y])]
        simp [hxy, List.mem_append]

lemma nodup_dedupKeep {κ : Type} [DecidableEq κ] (l : List κ) :
    ∀ seen : List κ, (dedupKeep seen l).Nodup := by
  induction l with
  | nil => intro seen; simp [dedupKeep]
  | cons y ys ih =>
    intro seen
    by_cases hy : y ∈ seen
    · rw [dedupKeep, if_pos hy]; exact ih seen
    · rw [dedupKeep, if_neg hy]
      refine List.nodup_cons.mpr ⟨?_, ih (seen ++ [y])⟩
      intro hmem
      exact ((mem_dedupKeep y ys (seen ++ [y])).mp hmem).2 (by simp)

lemma dedupKeep_nil_eq_of_nodup {κ : Type} [DecidableEq κ] (l : List κ) :
    ∀ seen : List κ, l.Nodup → (∀ x ∈ l, x ∉ seen) → dedupKeep seen l = l := by
  induction l with
  | nil => intro seen _ _; rfl
  | cons y ys ih =>
    intro seen hnd hdis
    have hy : y ∉ seen := hdis y (List.mem_cons_self y ys)
    rw [dedupKeep, if_neg hy]
    have hnd' := List.nodup_cons.mp hnd
    refine congrArg (y :: ·) (ih (seen ++ [y]) hnd'.2 ?_)
    intro x hx
    simp only [List.mem_append, List.mem_singleton]
    rintro (h | rfl)
    · exact hdis x (List.mem_cons_of_mem _ hx) h
    · exact hnd'.1 hx

lemma dedupKeep_append_singleton {κ : Type} [DecidableEq κ] (d : κ) (l : List κ) :
    ∀ seen : List κ, l.Nodup → (∀ x ∈ l, x ∉ seen) → (d ∈ seen ∨ d ∈ l) →
      dedupKeep seen (l ++ [d]) = l := by
  induction l with
  | nil =>
    intro seen _ _ hd
    have hds : d ∈ seen := by
      rcases hd with h | h
      · exact h
      · cases h
    simp [dedupKeep, hds]
  | cons y ys ih =>
    intro seen hnd hdis hd
    have hy : y ∉ seen := hdis y (List.mem_cons_self y ys)
    have hnd' := List.nodup_cons.mp hnd
    rw [List.cons_append, dedupKeep, if_neg hy]
    refine congrArg (y :: ·) (ih (seen ++ [y]) hnd'.2 ?_ ?_)
    · intro x hx
      simp only [List.mem_append, List.mem_singleton]
      rintro (h | rfl)
      · exact hdis x (List.mem_cons_of_mem _ hx) h
      · exact hnd'.1 hx
    · rcases hd with h | h
      · exact Or.inl (List.mem_append_left _ h)
      · rcases List.mem_cons.mp h with rfl | h
        · exact Or.inl (List.mem_append_right _ (List.mem_singleton_self d))
        · exact Or.inr h

lemma setDedup_idem_add (d : Int) (l : List Int) (hnd : l.Nodup) (hd : d ∈ l) :
    setDedup (l ++ [d]) = l :=
  dedupKeep_append_singleton d l [] hnd (by simp) (Or.inr hd)

lemma foldl_claimStep_eq {κ : Type} [DecidableEq κ] (ks : List κ) :
    ∀ L T : List κ, ks.foldl claimStep ⟨L, T⟩ = ⟨L ++ dedupKeep L ks, T ++ dedupKeep L ks⟩ := by
  induction ks with
  | nil => intro L T; simp [dedupKeep]
  | cons k ks ih =>
    intro L T
    by_cases hk : k ∈ L
    · rw [List.foldl_cons]
      rw [show claimStep ⟨L, T⟩ k = ⟨L, T⟩ from by simp [claimStep, hk]]
      rw [ih L T, dedupKeep, if_pos hk]
    · rw [List.foldl_cons]
      rw [show claimStep ⟨L, T⟩ k = ⟨L ++ [k], T ++ [k]⟩ from by simp [claimStep, hk]]
      rw [ih (L ++ [k]) (T ++ [k]), dedupKeep, if_neg hk]
      simp

lemma claimRun_eq {κ : Type} [DecidableEq κ] (log ks : List κ) :
    claimRun log ks = ⟨log ++ dedupKeep log ks, dedupKeep log ks⟩ := by
  rw [claimRun, foldl_claimStep_eq ks log []]
  simp

lemma drainOutbox_eq (ok : Mutation → Bool) (l : List Mutation) :
    drainOutbox ok l = (l.takeWhile ok ++ (l.dropWhile ok).take 1, l.dropWhile ok) := by
  induction l with
  | nil => simp [drainOutbox]
  | cons m rest ih =>
    by_cases hm : ok m
    · rw [drainOutbox, if_pos hm, ih]
      rw [List.takeWhile_cons_of_pos hm, List.dropWhile_cons_of_pos hm]
      rfl
    · rw [drainOutbox, if_neg hm]
      rw [List.takeWhile_cons_of_neg (by simpa using hm),
        List.dropWhile_cons_of_neg (by simpa using hm)]
      rfl

lemma takeWhile_mem_ok (ok : Mutation → Bool) (l : List Mutation) :
    ∀ m ∈ l.takeWhile ok, ok m = true := by
  induction l with
  | nil => simp
  | cons x rest ih =>
    by_cases hx : ok x
    · rw [List.takeWhile_cons_of_pos hx]
      intro m hm
      rcases List.mem_cons.mp hm with rfl | hm
      · exact hx
      · exact ih m hm
    · rw [List.takeWhile_cons_of_neg (by simpa using hx)]
      simp

lemma dropWhile_head_not_ok (ok : Mutation → Bool) (l : List Mutation) :
    ∀ m, (l.dropWhile ok).head? = some m → ok m = false := by
  induction l with
  | nil => simp
  | cons x rest ih =>
    by_cases hx : ok x
    · rw [List.dropWhile_cons_of_pos hx]; exact ih
    · rw [List.dropWhile_cons_of_neg (by simpa using hx)]
      intro m hm
      simp only [List.head?_cons, Option.some.injEq] at hm
      subst hm
      simpa using hx

lemma find?_map_replace {α : Type} (key : α → String) (u : α) (store : List α)
    (h : store.any (fun x => decide (key x = key u)) = true) :
    (store.map (fun x => if key x = key u then u else x)).find?
      (fun x => decide (key x = key u)) = some u := by
  induction store with
  | nil => simp at h
  | cons y ys ih =>
    by_cases hy : key y = key u
    · simp [List.find?_cons, hy]
    · have h' : ys.any (fun x => decide (key x = key u)) = true := by
        simpa [List.any_cons, hy] using h
      simpa [List.find?_cons, hy] using ih h'

lemma find?_append_single {α : Type} (key : α → String) (u : α) (store : List α)
    (h : store.any (fun x => decide (key x = key u)) = false) :
    (store ++ [u]).find? (fun x => decide (key x = key u)) = some u := by
  induction store with
  | nil => simp
  | cons y ys ih =>
    have hy : ¬ key y = key u := by
      intro hk
      simp [List.any_cons, hk] at h
    have h' : ys.any (fun x => decide (key x = key u)) = false := by
      simpa [List.any_cons, hy] using h
    simpa [List.find?_cons, hy] using ih h'

lemma findBy_putBy_eq {α : Type} (key : α → String) (store : List α) (u : α) :
    findBy key (putBy key store u) (key u) = some u := by
  rw [findBy, putBy]
  by_cases h : store.any (fun x => decide (key x = key u)) = true
  · rw [if_pos h]
    exact find?_map_replace key u store h
  · rw [if_neg h]
    exact find?_append_single key u store (by simpa using h)

lemma findBy_putBy_ne {α : Type} (key : α → String) (store : List α) (u : α) (i : String)
    (hne : i ≠ key u) : findBy key (putBy key store u) i = findBy key store i := by
  have hui : ¬ key u = i := fun hk => hne hk.symm
  rw [findBy, putBy, findBy]
  by_cases h : store.any (fun x => decide (key x = key u)) = true
  · rw [if_pos h]
    clear h
    induction store with
    | nil => simp
    | cons y ys ih =>
      by_cases hy : key y = key u
      · have hyi : ¬ key y = i := by rw [hy]; exact hui
        simp only [List.map_cons, if_pos hy, List.find?_cons]
        rw [show (decide (key u = i)) = false by simp [hui],
          show (decide (key y = i)) = false by simp [hyi]]
        exact ih
      · simp only [List.map_cons, if_neg hy, List.find?_cons]
        cases hd : decide (key y = i)
        · exact ih
        · rfl
  · rw [if_neg h]
    clear h
    induction store with
    | nil => simp [hui]
    | cons y ys ih =>
      simp only [List.cons_append, List.find?_cons]
      cases hd : decide (key y = i)
      · exact ih
      · rfl

lemma mem_putBy {α : Type} (key : α → String) (store : List α) (u : α) (x : α)
    (hx : x ∈ putBy key store u) : x ∈ store ∨ x = u := by
  rw [putBy] at hx
  by_cases h : store.any (fun y => decide (key y = key u)) = true
  · rw [if_pos h] at hx
    rcases List.mem_map.mp hx with ⟨y, hy, hyx⟩
    by_cases hk : key y = key u
    · rw [if_pos hk] at hyx
      exact Or.inr hyx.symm
    · rw [if_neg hk] at hyx
      exact Or.inl (hyx ▸ hy)
  · rw [if_neg h] at hx
    rcases List.mem_append.mp hx with hx | hx
    · exact Or.inl hx
    · exact Or.inr (List.mem_singleton.mp hx)

lemma bulkPutBy_cons {α : Type} (key : α → String) (store : List α) (r : α) (rs : List α) :
    bulkPutBy key store (r :: rs) = bulkPutBy key (putBy key store r) rs := rfl

lemma findBy_bulkPutBy_untouched {α : Type} (key : α → String) (rows : List α) :
    ∀ (store : List α) (i : String), (∀ r ∈ rows, key r ≠ i) →
      findBy key (bulkPutBy key store rows) i = findBy key store i := by
  induction rows with
  | nil => intro store i _; rfl
  | cons r rs ih =>
    intro store i h
    rw [bulkPutBy_cons]
    rw [ih (putBy key store r) i (fun x hx => h x (List.mem_cons_of_mem _ hx))]
    exact findBy_putBy_ne key store r i (fun hk => h r (List.mem_cons_self r rs) hk.symm)

lemma findBy_bulkPutBy_mem {α : Type} (key : α → String) (rows : List α) :
    ∀ (store : List α) (r : α), (rows.map key).Nodup → r ∈ rows →
      findBy key (bulkPutBy key store rows) (key r) = some r := by
  induction rows with
  | nil => intro store r _ hr; cases hr
  | cons y ys ih =>
    intro store r hnd hr
    have hnd0 : key y ∉ ys.map key ∧ (ys.map key).Nodup := by
      rw [List.map_cons] at hnd
      exact List.nodup_cons.mp hnd
    rw [bulkPutBy_cons]
    rcases List.mem_cons.mp hr with rfl | hr
    · have huntouched : ∀ x ∈ ys, key x ≠ key r := by
        intro x hx hk
        exact hnd0.1 (hk ▸ List.mem_map_of_mem key hx)
      rw [findBy_bulkPutBy_untouched key ys (putBy key store r) (key r) huntouched]
      exact findBy_putBy_eq key store r
    · exact ih (putBy key store y) r hnd0.2 hr

lemma findBy_some_key {α : Type} (key : α → String) (store : List α) (i : String) (x : α)
    (h : findBy key store i = some x) : key x = i := by
  have := List.find?_some h
  simpa using this

lemma findBy_deleteBy_self {α : Type} (key : α → String) (store : List α) (i : String) :
    findBy key (deleteBy key store i) i = none := by
  rw [findBy, deleteBy]
  induction store with
  | nil => rfl
  | cons y ys ih =>
    by_cases hy : key y = i
    · rw [List.filter_cons, if_neg (by simp [hy])]
      exact ih
    · rw [List.filter_cons, if_pos (by simp [hy]), List.find?_cons_of_neg _ (by simp [hy])]
      exact ih

lemma deleteEventOccurrence_events_recurring (db : LocalDB) (eventId : String) (d now : Int)
    (e : CalendarEvent) (r : RRuleSpec)
    (hfind : findBy (fun x => x.id) db.events eventId = some e)
    (hrec : e.recurrenceRule = some r) :
    (deleteEventOccurrence db eventId d now).events
      = putBy (fun x => x.id) db.events
          { e with exceptionDates := setDedup (e.exceptionDates ++ [d]), updatedAt := now } := by
  simp only [deleteEventOccurrence, hfind, hrec, saveEvent, enqueueMutation]

lemma findBy_deleteEventOccurrence_recurring (db : LocalDB) (eventId : String) (d now : Int)
    (e : CalendarEvent) (r : RRuleSpec)
    (hfind : findBy (fun x => x.id) db.events eventId = some e)
    (hrec : e.recurrenceRule = some r) :
    findBy (fun x => x.id) (deleteEventOccurrence db eventId d now).events eventId
      = some { e with exceptionDates := setDedup (e.exceptionDates ++ [d]), updatedAt := now } := by
  rw [deleteEventOccurrence_events_recurring db eventId d now e r hfind hrec]
  have hid : e.id = eventId := findBy_some_key _ _ _ _ hfind
  rw [← hid]
  exact findBy_putBy_eq _ db.events _

lemma expandEvent_addException (e : CalendarEvent) (r : RRuleSpec)
    (hrec : e.recurrenceRule = some r) (d now : Int) (a b : Int) :
    expandEvent { e with exceptionDates := setDedup (e.exceptionDates ++ [d]), updatedAt := now } a b
      = (expandEvent e a b).filter (fun o => decide (o.occurrenceDate ≠ d)) := by
  simp only [expandEvent, hrec]
  rw [List.filter_map, List.filter_filter]
  refine congrArg (List.map _) (List.filter_congr ?_)
  intro t _
  by_cases h1 : dayOfInstant t ∈ e.exceptionDates
  · simp [setDedup, mem_dedupKeep, h1]
  · by_cases h2 : dayOfInstant t = d
    · simp [setDedup, mem_dedupKeep, h1, h2]
    · simp [setDedup, mem_dedupKeep, h1, h2]

lemma expandEvent_not_excepted (ev : CalendarEvent) (a b : Int) (o : AgendaOccurrence)
    (ho : o ∈ expandEvent ev a b) : o.occurrenceDate ∉ ev.exceptionDates := by
  rw [expandEvent] at ho
  cases hrec : ev.recurrenceRule with
  | none =>
    rw [hrec] at ho
    by_cases hw : a ≤ ev.startsAt ∧ ev.startsAt ≤ b
    · rw [if_pos hw] at ho
      by_cases hx : dayOfInstant ev.startsAt ∈ ev.exceptionDates
      · rw [if_pos hx] at ho
        cases ho
      · rw [if_neg hx] at ho
        rcases List.mem_singleton.mp ho with rfl
        exact hx
    · rw [if_neg hw] at ho
      cases ho
  | some r =>
    rw [hrec] at ho
    rcases List.mem_map.mp ho with ⟨t, ht, rfl⟩
    have := (List.mem_filter.mp ht).2
    simpa using this

lemma mem_dueActionTokens (acts : List PlanAction) (now : Int) (a : PlanAction) (r : Int)
    (ha : a ∈ acts) (hpc : a.percentComplete < 100) (hr : r ∈ a.reminders) (hle : r ≤ now) :
    (⟨.action, a.id, r⟩ : ReminderToken) ∈ dueActionTokens now acts := by
  rw [dueActionTokens]
  refine List.mem_flatMap.mpr ⟨a, ha, ?_⟩
  rw [if_neg (by omega)]
  exact List.mem_map.mpr ⟨r, List.mem_filter.mpr ⟨hr, by simpa using hle⟩, rfl⟩

lemma mem_dueEventTokens (evs : List CalendarEvent) (now : Int) (e : CalendarEvent) (r : Int)
    (he : e ∈ evs) (hr : r ∈ e.reminders) (hle : r ≤ now) :
    (⟨.event, e.id, r⟩ : ReminderToken) ∈ dueEventTokens now evs := by
  rw [dueEventTokens]
  exact List.mem_flatMap.mpr
    ⟨e, he, List.mem_map.mpr ⟨r, List.mem_filter.mpr ⟨hr, by simpa using hle⟩, rfl⟩⟩

lemma pull_table_overwrite {α β : Type} (key : α → String) (rkey : β → String) (tr : β → α)
    (hkey : ∀ r, key (tr r) = rkey r) (store : List α) (rows : List β)
    (hnd : (rows.map rkey).Nodup) (r : β) (hr : r ∈ rows) :
    findBy key (bulkPutBy key store (rows.map tr)) (rkey r) = some (tr r) := by
  have h2 : ((rows.map tr).map key).Nodup := by
    rw [List.map_map]
    rw [show (key ∘ tr) = rkey from funext hkey]
    exact hnd
  have := findBy_bulkPutBy_mem key (rows.map tr) store (tr r) h2 (List.mem_map_of_mem tr hr)
  rwa [hkey r] at this

lemma pull_table_untouched {α β : Type} (key : α → String) (rkey : β → String) (tr : β → α)
    (hkey : ∀ r, key (tr r) = rkey r) (store : List α) (rows : List β) (i : String)
    (h : ∀ r ∈ rows, rkey r ≠ i) :
    findBy key (bulkPutBy key store (rows.map tr)) i = findBy key store i := by
  apply findBy_bulkPutBy_untouched
  intro x hx
  rcases List.mem_map.mp hx with ⟨r, hr, rfl⟩
  rw [hkey r]
  exact h r hr

/-! ## Claim theorems -/

/-- C1 (counterexample): the local-remote-local round trip is not the
identity on every field of a well-formed CalendarEvent: toRemote drops
the description field (RemoteEvent has no such column), so pulling back
yields an event whose description is absent. -/
theorem roundTrip_drops_event_description :
    toLocalEvent (toRemoteEvent evDesc) ≠ evDesc := by decide

/-- C1 (amended): for every sync table, translating a well-formed local
entity to the remote row shape and back is the identity on every
translated field: full identity for categories, items, actions and
profiles, and identity on every field except description for events,
whose description is dropped by the translation. -/
theorem toLocal_toRemote_roundTrip :
    (∀ x : PriorityCategory, toLocalCategory (toRemoteCategory x) = x)
    ∧ (∀ x : PlanItem, toLocalItem (toRemoteItem x) = x)
    ∧ (∀ x : PlanAction, toLocalAction (toRemoteAction x) = x)
    ∧ (∀ x : UserProfile, toLocalProfile (toRemoteProfile x) = x)
    ∧ (∀ x : CalendarEvent,
        toLocalEvent (toRemoteEvent x) = { x with description := none }) :=
  ⟨fun _ => rfl, fun _ => rfl, fun _ => rfl, fun _ => rfl, fun _ => rfl⟩

/-- C2: pushMutations processes the outbox oldest-first (ordered by id);
the drained prefix is exactly the successful entries, removed one by one
before the next attempt; the attempts stop at the first failing entry;
afterwards the outbox is exactly the failing entry and all later ones, in
id order (the remaining suffix, whose head fails). -/
theorem pushMutations_stops_at_first_failure (ok : Mutation → Bool) (outbox : List Mutation) :
    (orderById outbox).Sorted mutIdLe
    ∧ (orderById outbox).Perm outbox
    ∧ (orderById outbox).takeWhile ok ++ pushMutations ok outbox = orderById outbox
    ∧ pushAttempted ok outbox
        = (orderById outbox).takeWhile ok ++ (pushMutations ok outbox).take 1
    ∧ (∀ m ∈ (orderById outbox).takeWhile ok, ok m = true)
    ∧ (∀ m, (pushMutations ok outbox).head? = some m → ok m = false) := by
  refine ⟨List.sorted_insertionSort mutIdLe outbox, List.perm_insertionSort mutIdLe outbox,
    ?_, ?_, takeWhile_mem_ok ok (orderById outbox), ?_⟩
  · rw [pushMutations, drainOutbox_eq]
    exact List.takeWhile_append_dropWhile ok (orderById outbox)
  · rw [pushAttempted, pushMutations, drainOutbox_eq]
  · intro m hm
    rw [pushMutations, drainOutbox_eq] at hm
    exact dropWhile_head_not_ok ok (orderById outbox) m hm

/-- C2 (witness): on the concrete outbox upsert A, upsert B, delete A
with B failing, the outbox head after the run is the failed B entry and
it indeed fails. -/
theorem pushMutations_stops_at_first_failure_witness :
    (pushMutations okNotB [mutA1, mutB2, mutA3]).head? = some mutB2
    ∧ okNotB mutB2 = false :=
  ⟨by decide,
   (pushMutations_stops_at_first_failure okNotB [mutA1, mutB2, mutA3]).2.2.2.2.2
     mutB2 (by decide)⟩

/-- C3 (counterexample): in the outbox upsert A, upsert B, delete A with
B failing, the upsert A entry does NOT remain in the outbox after
pushMutations: it succeeded first and was removed, contrary to the
claim that both A entries remain un-drained. -/
theorem pushScenario_upsertA_removed :
    mutA1 ∉ pushMutations okNotB [mutA1, mutB2, mutA3] := by decide

/-- C3 (amended): for the outbox upsert A, upsert B, delete A where
pushing B fails, after pushMutations the outbox is exactly the failing
upsert B followed by delete A, in their original order: upsert A was
applied remotely and removed, delete A stays queued un-reordered behind
the failing B entry, and only upsert A and upsert B were attempted. -/
theorem pushScenario_outbox_after_failure :
    pushMutations okNotB [mutA1, mutB2, mutA3] = [mutB2, mutA3]
    ∧ pushAttempted okNotB [mutA1, mutB2, mutA3] = [mutA1, mutB2] := by
  exact ⟨by decide, by decide⟩

/-- C4: the event with rule weekly on Monday and Wednesday built by
recurrenceToRRule, starting 2024-01-01T09:00 with until-bound 2024-01-31
and no exceptions, expanded over the window 2024-01-01..2024-01-31,
yields exactly the ten occurrences on days 2024-01-01, 01-03, 01-08,
01-10, 01-15, 01-17, 01-22, 01-24, 01-29 and 01-31 (day numbers 19723,
19725, 19730, 19732, 19737, 19739, 19744, 19746, 19751, 19753), in
ascending start order, each with end = start + 3600, the original
duration. -/
theorem weeklyExpansionJan2024 :
    expandEvent ev4 (19723 * 86400) (19753 * 86400 + 86399) =
      [⟨"e4", 1704099600, 1704103200, 19723, true⟩,
       ⟨"e4", 1704272400, 1704276000, 19725, true⟩,
       ⟨"e4", 1704704400, 1704708000, 19730, true⟩,
       ⟨"e4", 1704877200, 1704880800, 19732, true⟩,
       ⟨"e4", 1705309200, 1705312800, 19737, true⟩,
       ⟨"e4", 1705482000, 1705485600, 19739, true⟩,
       ⟨"e4", 1705914000, 1705917600, 19744, true⟩,
       ⟨"e4", 1706086800, 1706090400, 19746, true⟩,
       ⟨"e4", 1706518800, 1706522400, 19751, true⟩,
       ⟨"e4", 1706691600, 1706695200, 19753, true⟩] := by decide

/-- C5: deleteEventOccurrence on a stored event with no recurrence rule
deletes the whole event; on a recurring event it adds the occurrence
calendar day to the exception set (stamping updatedAt); and expansion
suppresses exactly the occurrences on excepted calendar days, so after
the delete the expansion over any window equals the previous expansion
with exactly the occurrences on that day removed, every other occurrence
unchanged; no occurrence ever falls on an excepted day. -/
theorem deleteEventOccurrence_removes_one_day (db : LocalDB) (eventId : String) (d now : Int)
    (e : CalendarEvent) (hfind : findBy (fun x => x.id) db.events eventId = some e) :
    (e.recurrenceRule = none →
      findBy (fun x => x.id) (deleteEventOccurrence db eventId d now).events eventId = none)
    ∧ (∀ r, e.recurrenceRule = some r →
        findBy (fun x => x.id) (deleteEventOccurrence db eventId d now).events eventId
          = some { e with exceptionDates := setDedup (e.exceptionDates ++ [d]), updatedAt := now }
        ∧ d ∈ setDedup (e.exceptionDates ++ [d])
        ∧ (∀ a b, expandEvent
              { e with exceptionDates := setDedup (e.exceptionDates ++ [d]), updatedAt := now } a b
            = (expandEvent e a b).filter (fun o => decide (o.occurrenceDate ≠ d))))
    ∧ (∀ (ev : CalendarEvent) (a b : Int) (o : AgendaOccurrence),
        o ∈ expandEvent ev a b → o.occurrenceDate ∉ ev.exceptionDates) := by
  refine ⟨?_, ?_, expandEvent_not_excepted⟩
  · intro hrec
    simp only [deleteEventOccurrence, hfind, hrec, deleteEventSeries, enqueueMutation]
    exact findBy_deleteBy_self _ db.events eventId
  · intro r hrec
    refine ⟨findBy_deleteEventOccurrence_recurring db eventId d now e r hfind hrec, ?_, ?_⟩
    · rw [setDedup, mem_dedupKeep]
      simp
    · intro a b
      exact expandEvent_addException e r hrec d now a b

/-- C5 (witness): deleting the 2024-01-08 occurrence of the concrete
weekly event adds day 19730 to its exception set and the stored event is
found with exactly that exception list. -/
theorem deleteEventOccurrence_removes_one_day_witness :
    findBy (fun x => x.id) (deleteEventOccurrence dbEv "e4" 19730 9).events "e4"
      = some { ev4 with exceptionDates := setDedup (ev4.exceptionDates ++ [19730]), updatedAt := 9 }
    ∧ (19730 : Int) ∈ setDedup (ev4.exceptionDates ++ [19730]) :=
  ⟨((deleteEventOccurrence_removes_one_day dbEv "e4" 19730 9 ev4 (by decide)).2.1
      ⟨.weekly, [.MO, .WE], some 1706745599⟩ (by decide)).1,
   ((deleteEventOccurrence_removes_one_day dbEv "e4" 19730 9 ev4 (by decide)).2.1
      ⟨.weekly, [.MO, .WE], some 1706745599⟩ (by decide)).2.1⟩

lemma findBy_deleteEventOccurrence_recurring_to (db : LocalDB) (eventId : String) (d now : Int)
    (e : CalendarEvent) (r : RRuleSpec) (X : List Int)
    (hfind : findBy (fun x => x.id) db.events eventId = some e)
    (hrec : e.recurrenceRule = some r)
    (hX : setDedup (e.exceptionDates ++ [d]) = X) :
    findBy (fun x => x.id) (deleteEventOccurrence db eventId d now).events eventId
      = some { e with exceptionDates := X, updatedAt := now } := by
  subst hX
  exact findBy_deleteEventOccurrence_recurring db eventId d now e r hfind hrec

/-- C10: deleteEventOccurrence is idempotent on recurring events: one
application stores the event with exception list
setDedup (exceptionDates ++ day) and updatedAt stamped; a second
application with the same day stores the very same exception list (only
updatedAt changes again), that list has no duplicate entries and contains
the day, and every field other than exceptionDates and updatedAt keeps
its original value (the stored records are literally the original event
with only those two fields replaced). -/
theorem deleteEventOccurrence_idempotent (db : LocalDB) (eventId : String) (d now1 now2 : Int)
    (e : CalendarEvent) (r : RRuleSpec)
    (hfind : findBy (fun x => x.id) db.events eventId = some e)
    (hrec : e.recurrenceRule = some r) :
    findBy (fun x => x.id) (deleteEventOccurrence db eventId d now1).events eventId
      = some { e with exceptionDates := setDedup (e.exceptionDates ++ [d]), updatedAt := now1 }
    ∧ findBy (fun x => x.id)
        (deleteEventOccurrence (deleteEventOccurrence db eventId d now1) eventId d now2).events
        eventId
      = some { e with exceptionDates := setDedup (e.exceptionDates ++ [d]), updatedAt := now2 }
    ∧ (setDedup (e.exceptionDates ++ [d])).Nodup
    ∧ d ∈ setDedup (e.exceptionDates ++ [d]) := by
  have hnd : (setDedup (e.exceptionDates ++ [d])).Nodup := nodup_dedupKeep _ _
  have hdm : d ∈ setDedup (e.exceptionDates ++ [d]) := by
    rw [setDedup, mem_dedupKeep]
    simp
  have h1 := findBy_deleteEventOccurrence_recurring db eventId d now1 e r hfind hrec
  refine ⟨h1, ?_, hnd, hdm⟩
  have h2 := findBy_deleteEventOccurrence_recurring_to
    (deleteEventOccurrence db eventId d now1) eventId d now2
    { e with exceptionDates := setDedup (e.exceptionDates ++ [d]), updatedAt := now1 } r
    (setDedup (e.exceptionDates ++ [d])) h1 hrec
    (setDedup_idem_add d (setDedup (e.exceptionDates ++ [d])) hnd hdm)
  exact h2

/-- C10 (witness): deleting the 2024-01-03 occurrence of the concrete
weekly event twice stores exception list 19725 both times, duplicate
free and containing the day. -/
theorem deleteEventOccurrence_idempotent_witness :
    findBy (fun x => x.id)
        (deleteEventOccurrence (deleteEventOccurrence dbEv "e4" 19725 1) "e4" 19725 2).events "e4"
      = some { ev4 with exceptionDates := setDedup (ev4.exceptionDates ++ [19725]), updatedAt := 2 }
    ∧ (setDedup (ev4.exceptionDates ++ [19725])).Nodup :=
  ⟨(deleteEventOccurrence_idempotent dbEv "e4" 19725 1 2 ev4
      ⟨.weekly, [.MO, .WE], some 1706745599⟩ (by decide) (by decide)).2.1,
   (deleteEventOccurrence_idempotent dbEv "e4" 19725 1 2 ev4
      ⟨.weekly, [.MO, .WE], some 1706745599⟩ (by decide) (by decide)).2.2.1⟩

/-- C6: in one delivery-service invocation, every due (event, reminder,
subscriber) triple is first claimed by inserting its key into the
dispatch log: the post-run log is the pre-run log extended by exactly the
pushed keys; a key already in the log is skipped with no push attempt
(every pushed key was absent from the pre-run log); a freshly inserted
key is pushed exactly once (the push trace has no duplicates) and every
due key not yet logged does get its one push; and across a second
invocation sharing the log, no key pushed by the first is pushed again. -/
theorem dispatchLog_insert_as_lock (log : List DispatchKey) (lo hi lo2 hi2 : Int)
    (events events2 : List EventRow) (subs subs2 : List SubscriptionRow) :
    (runInvocation log lo hi events subs).log
        = log ++ (runInvocation log lo hi events subs).trace
    ∧ (runInvocation log lo hi events subs).trace.Nodup
    ∧ (∀ k ∈ (runInvocation log lo hi events subs).trace,
        k ∉ log ∧ k ∈ dueDispatchKeys lo hi events subs)
    ∧ (∀ k ∈ dueDispatchKeys lo hi events subs, k ∉ log →
        k ∈ (runInvocation log lo hi events subs).trace)
    ∧ (∀ k ∈ (runInvocation log lo hi events subs).trace,
        k ∉ (runInvocation (runInvocation log lo hi events subs).log lo2 hi2
              events2 subs2).trace) := by
  rw [runInvocation, runInvocation, claimRun_eq, claimRun_eq]
  refine ⟨rfl, nodup_dedupKeep _ _, ?_, ?_, ?_⟩
  · intro k hk
    have := (mem_dedupKeep k (dueDispatchKeys lo hi events subs) log).mp hk
    exact ⟨this.2, this.1⟩
  · intro k hk hnl
    exact (mem_dedupKeep k (dueDispatchKeys lo hi events subs) log).mpr ⟨hk, hnl⟩
  · intro k hk hk2
    have h2 := (mem_dedupKeep k (dueDispatchKeys lo2 hi2 events2 subs2)
      (log ++ dedupKeep log (dueDispatchKeys lo hi events subs))).mp hk2
    exact h2.2 (List.mem_append_right log hk)

/-- C6 (witness): with an empty log, one event whose reminder 60 is in
the window 0..100, and one active subscription, the key (e6, 60, s1) is
pushed by the first invocation and not pushed again by a second identical
invocation sharing the resulting log. -/
theorem dispatchLog_insert_as_lock_witness :
    (⟨"e6", 60, "s1"⟩ : DispatchKey) ∈ (runInvocation [] 0 100 [evRow1] [sub1]).trace
    ∧ (⟨"e6", 60, "s1"⟩ : DispatchKey)
        ∉ (runInvocation (runInvocation [] 0 100 [evRow1] [sub1]).log 0 100
            [evRow1] [sub1]).trace :=
  ⟨(dispatchLog_insert_as_lock [] 0 100 0 100 [evRow1] [evRow1] [sub1] [sub1]).2.2.2.1
      ⟨"e6", 60, "s1"⟩ (by decide) (by decide),
   (dispatchLog_insert_as_lock [] 0 100 0 100 [evRow1] [evRow1] [sub1] [sub1]).2.2.2.2
      ⟨"e6", 60, "s1"⟩
      ((dispatchLog_insert_as_lock [] 0 100 0 100 [evRow1] [evRow1] [sub1] [sub1]).2.2.2.1
        ⟨"e6", 60, "s1"⟩ (by decide) (by decide))⟩

/-- C7: pullSnapshot upserts every fetched remote row into the matching
local table: for each of the five tables, any fetched remote row (ids
being unique as primary keys) is afterwards found locally as its
toLocal translation, unconditionally overwriting any previous local row
with that id; and it never deletes: a lookup of any id absent from the
fetched rows returns exactly what it returned before the pull. -/
theorem pullSnapshot_upserts_never_deletes (snap : RemoteSnapshot) (s : LocalStore) :
    (∀ rows, snap.categories = some rows → (rows.map (fun r => r.id)).Nodup →
      ∀ r ∈ rows, findBy (fun c => c.id) (pullSnapshot snap s).categories r.id
        = some (toLocalCategory r))
    ∧ (∀ rows, snap.categories = some rows → ∀ i, (∀ r ∈ rows, r.id ≠ i) →
      findBy (fun c => c.id) (pullSnapshot snap s).categories i
        = findBy (fun c => c.id) s.categories i)
    ∧ (∀ rows, snap.items = some rows → (rows.map (fun r => r.id)).Nodup →
      ∀ r ∈ rows, findBy (fun it => it.id) (pullSnapshot snap s).items r.id
        = some (toLocalItem r))
    ∧ (∀ rows, snap.items = some rows → ∀ i, (∀ r ∈ rows, r.id ≠ i) →
      findBy (fun it => it.id) (pullSnapshot snap s).items i
        = findBy (fun it => it.id) s.items i)
    ∧ (∀ rows, snap.actions = some rows → (rows.map (fun r => r.id)).Nodup →
      ∀ r ∈ rows, findBy (fun a => a.id) (pullSnapshot snap s).actions r.id
        = some (toLocalAction r))
    ∧ (∀ rows, snap.actions = some rows → ∀ i, (∀ r ∈ rows, r.id ≠ i) →
      findBy (fun a => a.id) (pullSnapshot snap s).actions i
        = findBy (fun a => a.id) s.actions i)
    ∧ (∀ rows, snap.events = some rows → (rows.map (fun r => r.id)).Nodup →
      ∀ r ∈ rows, findBy (fun e => e.id) (pullSnapshot snap s).events r.id
        = some (toLocalEvent r))
    ∧ (∀ rows, snap.events = some rows → ∀ i, (∀ r ∈ rows, r.id ≠ i) →
      findBy (fun e => e.id) (pullSnapshot snap s).events i
        = findBy (fun e => e.id) s.events i)
    ∧ (∀ rows, snap.profiles = some rows → (rows.map (fun r => r.id)).Nodup →
      ∀ r ∈ rows, findBy (fun p => p.id) (pullSnapshot snap s).profiles r.id
        = some (toLocalProfile r))
    ∧ (∀ rows, snap.profiles = some rows → ∀ i, (∀ r ∈ rows, r.id ≠ i) →
      findBy (fun p => p.id) (pullSnapshot snap s).profiles i
        = findBy (fun p => p.id) s.profiles i) := by
  refine ⟨?_, ?_, ?_, ?_, ?_, ?_, ?_, ?_, ?_, ?_⟩
  · intro rows hsome hnd r hr
    simp only [pullSnapshot, hsome]
    exact pull_table_overwrite _ _ toLocalCategory (fun _ => rfl) s.categories rows hnd r hr
  · intro rows hsome i h
    simp only [pullSnapshot, hsome]
    exact pull_table_untouched _ _ toLocalCategory (fun _ => rfl) s.categories rows i h
  · intro rows hsome hnd r hr
    simp only [pullSnapshot, hsome]
    exact pull_table_overwrite _ _ toLocalItem (fun _ => rfl) s.items rows hnd r hr
  · intro rows hsome i h
    simp only [pullSnapshot, hsome]
    exact pull_table_untouched _ _ toLocalItem (fun _ => rfl) s.items rows i h
  · intro rows hsome hnd r hr
    simp only [pullSnapshot, hsome]
    exact pull_table_overwrite _ _ toLocalAction (fun _ => rfl) s.actions rows hnd r hr
  · intro rows hsome i h
    simp only [pullSnapshot, hsome]
    exact pull_table_untouched _ _ toLocalAction (fun _ => rfl) s.actions rows i h
  · intro rows hsome hnd r hr
    simp only [pullSnapshot, hsome]
    exact pull_table_overwrite _ _ toLocalEvent (fun _ => rfl) s.events rows hnd r hr
  · intro rows hsome i h
    simp only [pullSnapshot, hsome]
    exact pull_table_untouched _ _ toLocalEvent (fun _ => rfl) s.events rows i h
  · intro rows hsome hnd r hr
    simp only [pullSnapshot, hsome]
    exact pull_table_overwrite _ _ toLocalProfile (fun _ => rfl) s.profiles rows hnd r hr
  · intro rows hsome i h
    simp only [pullSnapshot, hsome]
    exact pull_table_untouched _ _ toLocalProfile (fun _ => rfl) s.profiles rows i h

/-- C7 (witness): pulling a snapshot whose events table holds the remote
row e7 into a store holding only the local event e4 leaves e7 present as
its translation and the lookup of e4 exactly as before the pull. -/
theorem pullSnapshot_upserts_never_deletes_witness :
    findBy (fun e => e.id) (pullSnapshot remoteSnap7 store7).events "e7"
      = some (toLocalEvent remoteEv7)
    ∧ findBy (fun e => e.id) (pullSnapshot remoteSnap7 store7).events "e4"
      = findBy (fun e => e.id) store7.events "e4" :=
  ⟨(pullSnapshot_upserts_never_deletes remoteSnap7 store7).2.2.2.2.2.2.1
      [remoteEv7] rfl (by decide) remoteEv7 (by decide),
   (pullSnapshot_upserts_never_deletes remoteSnap7 store7).2.2.2.2.2.2.2.1
      [remoteEv7] rfl "e4" (by decide)⟩

/-- C8: every write of an action's percentComplete is clamped into
0..100: input -5 stores 0, input 150 stores 100, an input already in
0..100 is stored unchanged, the clamp always lands in 0..100, and both
action-writing operations (updateActionProgress with any integer input,
addAction which stores 0) preserve the invariant that every stored
percentComplete lies in 0..100. -/
theorem percentComplete_always_clamped (db : LocalDB) (actionId : String) (p now : Int)
    (hdb : ∀ a ∈ db.actions, 0 ≤ a.percentComplete ∧ a.percentComplete ≤ 100) :
    clampPercent (-5) = 0
    ∧ clampPercent 150 = 100
    ∧ (∀ n : Int, 0 ≤ n → n ≤ 100 → clampPercent n = n)
    ∧ (∀ n : Int, 0 ≤ clampPercent n ∧ clampPercent n ≤ 100)
    ∧ (∀ a ∈ (updateActionProgress db actionId p now).actions,
        0 ≤ a.percentComplete ∧ a.percentComplete ≤ 100)
    ∧ (∀ (aid iid t : String) (dd : Option Int) (rem : List Int) (mu : List String),
        ∀ a ∈ (addAction db aid iid t dd rem mu now).actions,
          0 ≤ a.percentComplete ∧ a.percentComplete ≤ 100) := by
  have hclamp : ∀ n : Int, 0 ≤ clampPercent n ∧ clampPercent n ≤ 100 := by
    intro n
    exact ⟨le_max_left 0 _, max_le (by norm_num) (min_le_left 100 n)⟩
  refine ⟨by decide, by decide, ?_, hclamp, ?_, ?_⟩
  · intro n h1 h2
    rw [clampPercent, min_eq_right h2, max_eq_right h1]
  · cases hf : findBy (fun a => a.id) db.actions actionId with
    | none =>
      simp only [updateActionProgress, hf]
      exact hdb
    | some existing =>
      simp only [updateActionProgress, hf, enqueueMutation]
      intro a ha
      rcases mem_putBy _ _ _ _ ha with h | rfl
      · exact hdb a h
      · exact hclamp p
  · intro aid iid t dd rem mu a ha
    simp only [addAction, enqueueMutation] at ha
    rcases mem_putBy _ _ _ _ ha with h | rfl
    · exact hdb a h
    · exact ⟨le_refl 0, by norm_num⟩

/-- C8 (witness): on the concrete store holding a half-done action, the
over-range write 150 leaves every stored percentComplete inside 0..100. -/
theorem percentComplete_always_clamped_witness :
    (∀ a ∈ dbAct.actions, 0 ≤ a.percentComplete ∧ a.percentComplete ≤ 100)
    ∧ (∀ a ∈ (updateActionProgress dbAct "a1" 150 5).actions,
        0 ≤ a.percentComplete ∧ a.percentComplete ≤ 100) :=
  ⟨by decide,
   (percentComplete_always_clamped dbAct "a1" 150 5 (by decide)).2.2.2.2.1⟩

/-- C9 (counterexample): a completed action (percentComplete 100) with a
reminder already due and never fired raises no notification and its token
is not added to the sent set: the dispatcher does not re-evaluate all
actions with non-empty reminder lists, it skips completed ones. -/
theorem checkReminders_skips_completed :
    (checkReminders [actDone] [] [] 10).trace = []
    ∧ (⟨.action, "a9", 5⟩ : ReminderToken) ∉ (checkReminders [actDone] [] [] 10).log := by
  exact ⟨by decide, by decide⟩

/-- C9 (amended): on each evaluation with permission granted, the client
dispatcher walks the events and the incomplete actions
(percentComplete below 100): the persisted sent set becomes the old set
followed by the raised tokens; each raised token was not yet in the set
and is raised only once; every due reminder (timestamp at or before now)
of an incomplete action or of an event has its entity-kind + id +
timestamp token in the resulting set, and is raised now if it was not
already in the set. Completed actions are skipped. -/
theorem checkReminders_fires_due_once (acts : List PlanAction) (evs : List CalendarEvent)
    (sent : List ReminderToken) (now : Int) :
    (checkReminders acts evs sent now).log = sent ++ (checkReminders acts evs sent now).trace
    ∧ (checkReminders acts evs sent now).trace.Nodup
    ∧ (∀ t ∈ (checkReminders acts evs sent now).trace, t ∉ sent)
    ∧ (∀ a ∈ acts, a.percentComplete < 100 → ∀ r ∈ a.reminders, r ≤ now →
        (⟨.action, a.id, r⟩ : ReminderToken) ∈ (checkReminders acts evs sent now).log
        ∧ ((⟨.action, a.id, r⟩ : ReminderToken) ∉ sent →
            (⟨.action, a.id, r⟩ : ReminderToken) ∈ (checkReminders acts evs sent now).trace))
    ∧ (∀ e ∈ evs, ∀ r ∈ e.reminders, r ≤ now →
        (⟨.event, e.id, r⟩ : ReminderToken) ∈ (checkReminders acts evs sent now).log
        ∧ ((⟨.event, e.id, r⟩ : ReminderToken) ∉ sent →
            (⟨.event, e.id, r⟩ : ReminderToken) ∈ (checkReminders acts evs sent now).trace)) := by
  rw [checkReminders, claimRun_eq]
  refine ⟨rfl, nodup_dedupKeep _ _, ?_, ?_, ?_⟩
  · intro t ht
    exact ((mem_dedupKeep t _ sent).mp ht).2
  · intro a ha hpc r hr hle
    have hdue : (⟨.action, a.id, r⟩ : ReminderToken)
        ∈ dueActionTokens now acts ++ dueEventTokens now evs :=
      List.mem_append_left _ (mem_dueActionTokens acts now a r ha hpc hr hle)
    constructor
    · by_cases hs : (⟨.action, a.id, r⟩ : ReminderToken) ∈ sent
      · exact List.mem_append_left _ hs
      · exact List.mem_append_right _ ((mem_dedupKeep _ _ sent).mpr ⟨hdue, hs⟩)
    · intro hs
      exact (mem_dedupKeep _ _ sent).mpr ⟨hdue, hs⟩
  · intro e he r hr hle
    have hdue : (⟨.event, e.id, r⟩ : ReminderToken)
        ∈ dueActionTokens now acts ++ dueEventTokens now evs :=
      List.mem_append_right _ (mem_dueEventTokens evs now e r he hr hle)
    constructor
    · by_cases hs : (⟨.event, e.id, r⟩ : ReminderToken) ∈ sent
      · exact List.mem_append_left _ hs
      · exact List.mem_append_right _ ((mem_dedupKeep _ _ sent).mpr ⟨hdue, hs⟩)
    · intro hs
      exact (mem_dedupKeep _ _ sent).mpr ⟨hdue, hs⟩

/-- C9 (witness): on the concrete incomplete action with its reminder at
100 due by now 200 and nothing fired yet, the dispatcher raises its
token. -/
theorem checkReminders_fires_due_once_witness :
    (⟨.action, "a1", 100⟩ : ReminderToken) ∈ (checkReminders [act1] [] [] 200).trace :=
  ((checkReminders_fires_due_once [act1] [] [] 200).2.2.2.1 act1 (by decide) (by decide)
    100 (by decide) (by decide)).2 (by decide)
